import Mathlib

/-!
Shallow embedding of the pull-request coordination layer of a desktop Git
client (src/app/src/lib/stores/pull-request-coordinator.ts) together with the
local-ref formatting helper (src/app/src/lib/git/refs.ts), and proofs of the
specification's testable properties about them.

The coordinator is a routing/lifecycle layer: it re-keys events from "remote
GitHub repository" to "local repositories associated with that remote", and it
owns at most one background `PullRequestUpdater` at a time.  Its mutable state
(the `repositories` snapshot and the `currentPullRequestUpdater` field) is
modelled as an explicit state record; the event handlers become state
transformers, and the `start()`/`stop()` calls the coordinator issues to
updater objects are recorded in an explicit trace so that lifecycle properties
can be stated.  JavaScript strings are modelled as lists of characters.
-/

namespace Desktop

/-- Modelled from the spec (the models/ directory is not part of the reviewed
slice): a remote GitHub repository is identified by a stable numeric
identifier `dbID` and may reference a parent remote repository (the upstream
project, when it is a fork).  The TypeScript field `parent : GitHubRepository
| null` is encoded by the two constructors: `root` stands for `parent ===
null` and `fork` for a non-null parent. -/
inductive GitHubRepository where
  | root (dbID : Int)
  | fork (dbID : Int) (parent : GitHubRepository)
deriving DecidableEq, Repr

/-- The `dbID` field of a `GitHubRepository`. -/
def GitHubRepository.dbID : GitHubRepository → Int
  | .root d => d
  | .fork d _ => d

/-- The `parent` field of a `GitHubRepository` (`none` encodes `null`). -/
def GitHubRepository.parent : GitHubRepository → Option GitHubRepository
  | .root _ => none
  | .fork _ p => some p

/-- Modelled from the spec: an `Account` is the authentication/credentials
context.  The coordinator never inspects it, it only passes it through. -/
structure Account where
  login : String
deriving DecidableEq, Repr

/-- Modelled from the spec: a `PullRequest` is an opaque record associated
with one remote repository; the coordinator never inspects it. -/
structure PullRequest where
  number : Int
deriving DecidableEq, Repr

/-- Modelled from the spec: a local repository is a locally cloned directory
tracked by the client; it may optionally carry an associated remote GitHub
repository.  `id` stands for the local repository's own identity. -/
structure Repository where
  id : Nat
  gitHubRepository : Option GitHubRepository
deriving DecidableEq, Repr

/-- Modelled from the spec (models/repository.ts is not part of the reviewed
slice): the type guard `isRepositoryWithGitHubRepository` holds exactly when
the repository has an associated GitHub repository. -/
def isRepositoryWithGitHubRepository (r : Repository) : Bool :=
  r.gitHubRepository.isSome

/-- A `PullRequestUpdater` as constructed by `startPullRequestUpdater`:
`new PullRequestUpdater(repository.gitHubRepository, account, store)`.
`updaterId` models object identity (each `new` allocates a fresh object).
In TypeScript the constructor argument's type guarantees the GitHub
repository is present; here it is carried as the `Option` stored in the
`Repository` record it was read from. -/
structure PullRequestUpdater where
  updaterId : Nat
  gitHubRepository : Option GitHubRepository
  account : Account
deriving DecidableEq, Repr

/-- One observable interaction between the coordinator and an updater object:
a `start()` or a `stop()` call on the updater identified by `updaterId`. -/
inductive UpdaterCall where
  | start (updaterId : Nat)
  | stop (updaterId : Nat)
deriving DecidableEq, Repr

/-- The updater object a call is addressed to. -/
def UpdaterCall.updaterId : UpdaterCall → Nat
  | .start i => i
  | .stop i => i

/-- The mutable state of a `PullRequestCoordinator`.
`currentPullRequestUpdater` and `repositories` are the two fields of the
TypeScript class; `nextUpdaterId` models the allocator handing out object
identities for `new PullRequestUpdater(...)`, and `updaterTrace` records, in
order, every `start()`/`stop()` call the coordinator has issued. -/
structure CoordinatorState where
  currentPullRequestUpdater : Option PullRequestUpdater
  repositories : List Repository
  nextUpdaterId : Nat
  updaterTrace : List UpdaterCall
deriving DecidableEq, Repr

/-- The state right after the constructor ran: no updater, empty snapshot. -/
def initialCoordinatorState : CoordinatorState :=
  { currentPullRequestUpdater := none
    repositories := []
    nextUpdaterId := 0
    updaterTrace := [] }

/-- The update handler registered on the repositories store in the
constructor: `this.repositories =
allRepositories.filter(isRepositoryWithGitHubRepository)`. -/
def handleRepositoriesUpdate (allRepositories : List Repository)
    (s : CoordinatorState) : CoordinatorState :=
  { s with repositories := allRepositories.filter isRepositoryWithGitHubRepository }

/-- Method `stopPullRequestUpdater()`: if an updater is current, call its `stop()`
and clear the field; otherwise do nothing. -/
def stopPullRequestUpdater (s : CoordinatorState) : CoordinatorState :=
  match s.currentPullRequestUpdater with
  | some u =>
      { s with
        currentPullRequestUpdater := none
        updaterTrace := s.updaterTrace ++ [UpdaterCall.stop u.updaterId] }
  | none => s

/-- Method `startPullRequestUpdater(repository, account)`: stop the current updater
if there is one, then construct a fresh `PullRequestUpdater` for
`repository.gitHubRepository` and `account` and call its `start()`. -/
def startPullRequestUpdater (repository : Repository) (account : Account)
    (s : CoordinatorState) : CoordinatorState :=
  let s1 := if s.currentPullRequestUpdater.isSome then stopPullRequestUpdater s else s
  let u : PullRequestUpdater :=
    { updaterId := s1.nextUpdaterId
      gitHubRepository := repository.gitHubRepository
      account := account }
  { s1 with
    currentPullRequestUpdater := some u
    nextUpdaterId := s1.nextUpdaterId + 1
    updaterTrace := s1.updaterTrace ++ [UpdaterCall.start u.updaterId] }

/-- The state-changing inputs the coordinator reacts to: a repositories-store
update, and the two public lifecycle methods. -/
inductive CoordinatorEvent where
  | repositoriesUpdate (allRepositories : List Repository)
  | startUpdater (repository : Repository) (account : Account)
  | stopUpdater
deriving Repr

/-- One step of the coordinator's state machine. -/
def coordinatorStep (s : CoordinatorState) : CoordinatorEvent → CoordinatorState
  | .repositoriesUpdate allRepositories => handleRepositoriesUpdate allRepositories s
  | .startUpdater repository account => startPullRequestUpdater repository account s
  | .stopUpdater => stopPullRequestUpdater s

/-- Run a sequence of coordinator events from a state. -/
def coordinatorRun (s : CoordinatorState) (events : List CoordinatorEvent) :
    CoordinatorState :=
  events.foldl coordinatorStep s

/-- The filter predicate of `findRepositoriesForGitHubRepository`:
`r.gitHubRepository.dbID === dbID || (r.gitHubRepository.parent !== null &&
r.gitHubRepository.parent.dbID === dbID)`.  A repository without an
associated GitHub repository (excluded by the TypeScript argument type)
matches nothing. -/
def matchesGitHubRepository (dbID : Int) (r : Repository) : Bool :=
  match r.gitHubRepository with
  | none => false
  | some g =>
      g.dbID == dbID ||
        (match g.parent with
         | some p => p.dbID == dbID
         | none => false)

/-- Helper `findRepositoriesForGitHubRepository(gitHubRepository, repositories)`:
the repositories whose remote is `gitHubRepository` itself or a fork of it. -/
def findRepositoriesForGitHubRepository (gitHubRepository : GitHubRepository)
    (repositories : List Repository) : List Repository :=
  repositories.filter (matchesGitHubRepository gitHubRepository.dbID)

/-- The wrapper the coordinator registers in `onPullRequestsChanged`: on a
store event `(ghRepo, pullRequests)` it finds the matching repositories in
the current snapshot and invokes the consumer callback once per match.  The
returned list is the sequence of callback invocations
`(repository, pullRequests)`, in order. -/
def onPullRequestsChangedDispatch (s : CoordinatorState)
    (ghRepo : GitHubRepository) (pullRequests : List PullRequest) :
    List (Repository × List PullRequest) :=
  (findRepositoriesForGitHubRepository ghRepo s.repositories).map
    fun repo => (repo, pullRequests)

/-- The wrapper the coordinator registers in `onIsLoadingPullRequests`, with
the loading flag as payload. -/
def onIsLoadingPullRequestsDispatch (s : CoordinatorState)
    (ghRepo : GitHubRepository) (isLoading : Bool) : List (Repository × Bool) :=
  (findRepositoriesForGitHubRepository ghRepo s.repositories).map
    fun repo => (repo, isLoading)

/-- Method `refreshPullRequests(repository, account)` delegates to
`this.pullRequestStore.refreshPullRequests(repository.gitHubRepository,
account)` and returns the store's result unchanged.  The store is a
parameter; `Except` models the asynchronous completion signal, which may be
an error the coordinator does not intercept. -/
def refreshPullRequests {ε α : Type}
    (storeRefreshPullRequests : Option GitHubRepository → Account → Except ε α)
    (repository : Repository) (account : Account) : Except ε α :=
  storeRefreshPullRequests repository.gitHubRepository account

/-- Method `getAllPullRequests(repository)` delegates to
`this.pullRequestStore.getAll(repository.gitHubRepository)`. -/
def getAllPullRequests (storeGetAll : Option GitHubRepository → List PullRequest)
    (repository : Repository) : List PullRequest :=
  storeGetAll repository.gitHubRepository

/-- The association invariant exactly as the spec words it: remote `R` is
"for" local repository `L` when `L.remote.dbID == R.dbID` or `L.remote.parent
≠ null ∧ L.remote.parent.dbID == R.dbID`.  Stated over the embedding, where a
local repository's remote is optional. -/
def specAssociationMatch (R : GitHubRepository) (L : Repository) : Prop :=
  ∃ g, L.gitHubRepository = some g ∧
    (g.dbID = R.dbID ∨ ∃ p, g.parent = some p ∧ p.dbID = R.dbID)

/-- Function `formatAsLocalRef` from src/app/src/lib/git/refs.ts, with JavaScript
strings modelled as lists of characters: prepend "refs/" when the name
already starts with "heads/", otherwise prepend "refs/heads/". -/
def formatAsLocalRef (name : List Char) : List Char :=
  if ("heads/".toList).isPrefixOf name then
    "refs/".toList ++ name
  else
    "refs/heads/".toList ++ name

/-- The calls the coordinator has issued to the updater object `i`, in
order. -/
def callsOn (i : Nat) (trace : List UpdaterCall) : List UpdaterCall :=
  trace.filter fun c => c.updaterId == i

/-- Updater `i` is finished: either the coordinator never interacted with it,
or it was started once and then stopped once, with nothing after the stop. -/
def updaterFinished (i : Nat) (trace : List UpdaterCall) : Prop :=
  callsOn i trace = [] ∨
    callsOn i trace = [UpdaterCall.start i, UpdaterCall.stop i]

/-- Updater `i` is live: it received a `start()` and no `stop()` yet. -/
def updaterLive (i : Nat) (trace : List UpdaterCall) : Prop :=
  UpdaterCall.start i ∈ trace ∧ UpdaterCall.stop i ∉ trace

/-- Lifecycle invariant of reachable coordinator states: every traced call
addresses an already-allocated updater; the current updater, if any, has been
started exactly once and not stopped; and every other updater is finished. -/
def UpdaterLifecycleInv (s : CoordinatorState) : Prop :=
  (∀ c ∈ s.updaterTrace, c.updaterId < s.nextUpdaterId) ∧
  (∀ u, s.currentPullRequestUpdater = some u →
      u.updaterId < s.nextUpdaterId ∧
      callsOn u.updaterId s.updaterTrace = [UpdaterCall.start u.updaterId] ∧
      ∀ i, i ≠ u.updaterId → updaterFinished i s.updaterTrace) ∧
  (s.currentPullRequestUpdater = none →
      ∀ i, updaterFinished i s.updaterTrace)

/-- The upstream remote repository of the spec's fork example (dbID 42). -/
def upstream42 : GitHubRepository := GitHubRepository.root 42

/-- A local clone of the upstream: its remote has dbID 42. -/
def upstreamClone : Repository :=
  { id := 0, gitHubRepository := some upstream42 }

/-- A local fork: its remote has dbID 7 and parent dbID 42. -/
def forkRepo : Repository :=
  { id := 1, gitHubRepository := some (GitHubRepository.fork 7 upstream42) }

/-- An account fixture. -/
def exampleAccount : Account := { login := "octocat" }

/-- A second account fixture. -/
def otherAccount : Account := { login := "hubot" }

/-- The coordinator state after the registry announced the fork example
snapshot `[upstreamClone, forkRepo]`. -/
def forkExampleState : CoordinatorState :=
  coordinatorRun initialCoordinatorState
    [CoordinatorEvent.repositoriesUpdate [upstreamClone, forkRepo]]

/-- A remote repository unrelated to the fork example (dbID 99). -/
def unrelated99 : GitHubRepository := GitHubRepository.root 99

/-- A local repository with no associated remote repository. -/
def bareLocalRepo : Repository := { id := 2, gitHubRepository := none }

theorem callsOn_nil (i : Nat) : callsOn i [] = [] := rfl

theorem callsOn_append (i : Nat) (t u : List UpdaterCall) :
    callsOn i (t ++ u) = callsOn i t ++ callsOn i u := by
  simp [callsOn]

theorem callsOn_singleton_self (c : UpdaterCall) :
    callsOn c.updaterId [c] = [c] := by
  simp [callsOn]

theorem callsOn_singleton_ne (i : Nat) (c : UpdaterCall)
    (h : c.updaterId ≠ i) : callsOn i [c] = [] := by
  simp [callsOn, h]

theorem callsOn_eq_nil_of_lt (i : Nat) (t : List UpdaterCall)
    (h : ∀ c ∈ t, c.updaterId < i) : callsOn i t = [] := by
  refine List.filter_eq_nil_iff.mpr ?_
  intro c hc
  simp only [beq_iff_eq]
  exact Nat.ne_of_lt (h c hc)

theorem mem_of_mem_callsOn (i : Nat) (t : List UpdaterCall) (c : UpdaterCall)
    (h : c ∈ callsOn i t) : c ∈ t :=
  List.mem_of_mem_filter h

theorem mem_callsOn_of_mem (i : Nat) (t : List UpdaterCall) (c : UpdaterCall)
    (hc : c ∈ t) (hi : c.updaterId = i) : c ∈ callsOn i t := by
  simp [callsOn, List.mem_filter, hc, hi]

theorem startPullRequestUpdater_eq (repository : Repository) (account : Account)
    (s : CoordinatorState) :
    startPullRequestUpdater repository account s =
      { currentPullRequestUpdater :=
          some { updaterId := s.nextUpdaterId
                 gitHubRepository := repository.gitHubRepository
                 account := account }
        repositories := s.repositories
        nextUpdaterId := s.nextUpdaterId + 1
        updaterTrace := s.updaterTrace ++
          ((match s.currentPullRequestUpdater with
            | some u => [UpdaterCall.stop u.updaterId]
            | none => []) ++ [UpdaterCall.start s.nextUpdaterId]) } := by
  cases hc : s.currentPullRequestUpdater with
  | none => simp [startPullRequestUpdater, hc]
  | some u => simp [startPullRequestUpdater, stopPullRequestUpdater, hc]

theorem trace_append_stop (t : List UpdaterCall) (m j : Nat)
    (hbound : ∀ c ∈ t, c.updaterId < m)
    (hcalls : callsOn j t = [UpdaterCall.start j])
    (hothers : ∀ i, i ≠ j → updaterFinished i t)
    (hj : j < m) :
    (∀ c ∈ t ++ [UpdaterCall.stop j], c.updaterId < m) ∧
    (∀ i, updaterFinished i (t ++ [UpdaterCall.stop j])) := by
  constructor
  · intro c hc
    rcases List.mem_append.mp hc with h1 | h2
    · exact hbound c h1
    · rcases List.mem_singleton.mp h2 with rfl
      simpa [UpdaterCall.updaterId] using hj
  · intro i
    by_cases hi : i = j
    · subst hi
      right
      rw [callsOn_append, hcalls]
      have hself : callsOn i [UpdaterCall.stop i] = [UpdaterCall.stop i] :=
        callsOn_singleton_self (UpdaterCall.stop i)
      rw [hself]
      rfl
    · have hfin := hothers i hi
      have hsing : callsOn i [UpdaterCall.stop j] = [] :=
        callsOn_singleton_ne i (UpdaterCall.stop j)
          (by simpa [UpdaterCall.updaterId] using Ne.symm hi)
      unfold updaterFinished at hfin ⊢
      rw [callsOn_append, hsing, List.append_nil]
      exact hfin

theorem trace_append_start (t : List UpdaterCall) (n : Nat)
    (hbound : ∀ c ∈ t, c.updaterId < n)
    (hfin : ∀ i, updaterFinished i t) :
    (∀ c ∈ t ++ [UpdaterCall.start n], c.updaterId < n + 1) ∧
    callsOn n (t ++ [UpdaterCall.start n]) = [UpdaterCall.start n] ∧
    (∀ i, i ≠ n → updaterFinished i (t ++ [UpdaterCall.start n])) := by
  refine ⟨?_, ?_, ?_⟩
  · intro c hc
    rcases List.mem_append.mp hc with h1 | h2
    · exact Nat.lt_succ_of_lt (hbound c h1)
    · rcases List.mem_singleton.mp h2 with rfl
      exact Nat.lt_succ_self n
  · rw [callsOn_append, callsOn_eq_nil_of_lt n t hbound, List.nil_append]
    exact callsOn_singleton_self (UpdaterCall.start n)
  · intro i hi
    have hsing : callsOn i [UpdaterCall.start n] = [] :=
      callsOn_singleton_ne i (UpdaterCall.start n)
        (by simpa [UpdaterCall.updaterId] using Ne.symm hi)
    have hfin' := hfin i
    unfold updaterFinished at hfin' ⊢
    rw [callsOn_append, hsing, List.append_nil]
    exact hfin'

theorem updaterLifecycleInv_initial : UpdaterLifecycleInv initialCoordinatorState := by
  refine ⟨?_, ?_, ?_⟩
  · intro c hc
    simp [initialCoordinatorState] at hc
  · intro u hu
    simp [initialCoordinatorState] at hu
  · intro _ i
    exact Or.inl rfl

theorem updaterLifecycleInv_handleRepositoriesUpdate (l : List Repository)
    (s : CoordinatorState) (h : UpdaterLifecycleInv s) :
    UpdaterLifecycleInv (handleRepositoriesUpdate l s) := h

theorem updaterLifecycleInv_stop (s : CoordinatorState)
    (h : UpdaterLifecycleInv s) :
    UpdaterLifecycleInv (stopPullRequestUpdater s) := by
  cases hc : s.currentPullRequestUpdater with
  | none =>
      have hs : stopPullRequestUpdater s = s := by
        simp [stopPullRequestUpdater, hc]
      rw [hs]
      exact h
  | some u =>
      have hs : stopPullRequestUpdater s =
          { s with
            currentPullRequestUpdater := none
            updaterTrace := s.updaterTrace ++ [UpdaterCall.stop u.updaterId] } := by
        simp [stopPullRequestUpdater, hc]
      obtain ⟨hbound, hcur, -⟩ := h
      obtain ⟨hlt, hcalls, hothers⟩ := hcur u hc
      obtain ⟨hbound', hfin'⟩ :=
        trace_append_stop s.updaterTrace s.nextUpdaterId u.updaterId
          hbound hcalls hothers hlt
      rw [hs]
      refine ⟨hbound', ?_, fun _ => hfin'⟩
      intro v hv
      simp at hv

theorem updaterLifecycleInv_start (repository : Repository) (account : Account)
    (s : CoordinatorState) (h : UpdaterLifecycleInv s) :
    UpdaterLifecycleInv (startPullRequestUpdater repository account s) := by
  have hstop := updaterLifecycleInv_stop s h
  rw [startPullRequestUpdater_eq]
  have hbound0 : ∀ c ∈ s.updaterTrace ++
      (match s.currentPullRequestUpdater with
       | some u => [UpdaterCall.stop u.updaterId]
       | none => []), c.updaterId < s.nextUpdaterId := by
    cases hc : s.currentPullRequestUpdater with
    | none =>
        simpa using h.1
    | some u =>
        have hs : stopPullRequestUpdater s =
            { s with
              currentPullRequestUpdater := none
              updaterTrace := s.updaterTrace ++ [UpdaterCall.stop u.updaterId] } := by
          simp [stopPullRequestUpdater, hc]
        have := hstop.1
        rw [hs] at this
        simpa using this
  have hfin0 : ∀ i, updaterFinished i (s.updaterTrace ++
      (match s.currentPullRequestUpdater with
       | some u => [UpdaterCall.stop u.updaterId]
       | none => [])) := by
    cases hc : s.currentPullRequestUpdater with
    | none =>
        intro i
        simpa using h.2.2 hc i
    | some u =>
        have hs : stopPullRequestUpdater s =
            { s with
              currentPullRequestUpdater := none
              updaterTrace := s.updaterTrace ++ [UpdaterCall.stop u.updaterId] } := by
          simp [stopPullRequestUpdater, hc]
        have := hstop.2.2
        rw [hs] at this
        simpa using this rfl
  obtain ⟨hbound1, hcalls1, hothers1⟩ :=
    trace_append_start _ s.nextUpdaterId hbound0 hfin0
  refine ⟨?_, ?_, ?_⟩
  · intro c hc
    have := hbound1 c (by simpa [List.append_assoc] using hc)
    simpa using this
  · intro v hv
    have hv' : v = { updaterId := s.nextUpdaterId
                     gitHubRepository := repository.gitHubRepository
                     account := account } := by
      simpa using hv.symm
    subst hv'
    refine ⟨Nat.lt_succ_self _, ?_, ?_⟩
    · simpa [List.append_assoc] using hcalls1
    · intro i hi
      have := hothers1 i hi
      simpa [updaterFinished, List.append_assoc] using this
  · intro hnone
    simp at hnone

theorem updaterLifecycleInv_step (s : CoordinatorState) (e : CoordinatorEvent)
    (h : UpdaterLifecycleInv s) : UpdaterLifecycleInv (coordinatorStep s e) := by
  cases e with
  | repositoriesUpdate l => exact updaterLifecycleInv_handleRepositoriesUpdate l s h
  | startUpdater r a => exact updaterLifecycleInv_start r a s h
  | stopUpdater => exact updaterLifecycleInv_stop s h

theorem updaterLifecycleInv_run (s : CoordinatorState)
    (events : List CoordinatorEvent) (h : UpdaterLifecycleInv s) :
    UpdaterLifecycleInv (coordinatorRun s events) := by
  induction events generalizing s with
  | nil => exact h
  | cons e es ih => exact ih (coordinatorStep s e) (updaterLifecycleInv_step s e h)

theorem not_updaterLive_of_finished (i : Nat) (t : List UpdaterCall)
    (h : updaterFinished i t) : ¬ updaterLive i t := by
  rintro ⟨hstart, hstop⟩
  rcases h with h | h
  · have hmem := mem_callsOn_of_mem i t (UpdaterCall.start i) hstart rfl
    rw [h] at hmem
    simp at hmem
  · apply hstop
    have hmem : UpdaterCall.stop i ∈ callsOn i t := by
      rw [h]; simp
    exact mem_of_mem_callsOn i t _ hmem

theorem updaterLive_eq_of_inv (s : CoordinatorState) (h : UpdaterLifecycleInv s)
    (i j : Nat) (hi : updaterLive i s.updaterTrace)
    (hj : updaterLive j s.updaterTrace) : i = j := by
  obtain ⟨hbound, hsome, hnone⟩ := h
  cases hc : s.currentPullRequestUpdater with
  | none =>
      exact absurd hi (not_updaterLive_of_finished i _ (hnone hc i))
  | some u =>
      obtain ⟨-, -, hothers⟩ := hsome u hc
      have hi' : i = u.updaterId := by
        by_contra hne
        exact (not_updaterLive_of_finished i _ (hothers i hne)) hi
      have hj' : j = u.updaterId := by
        by_contra hne
        exact (not_updaterLive_of_finished j _ (hothers j hne)) hj
      rw [hi', hj']

theorem finished_callsOn_step (s : CoordinatorState) (e : CoordinatorEvent) (i : Nat)
    (hinv : UpdaterLifecycleInv s)
    (hfin : callsOn i s.updaterTrace = [UpdaterCall.start i, UpdaterCall.stop i]) :
    callsOn i (coordinatorStep s e).updaterTrace = callsOn i s.updaterTrace := by
  have hibound : i < s.nextUpdaterId := by
    have hmem : UpdaterCall.start i ∈ callsOn i s.updaterTrace := by
      rw [hfin]; simp
    have := hinv.1 _ (mem_of_mem_callsOn i _ _ hmem)
    simpa [UpdaterCall.updaterId] using this
  have hnotcur : ∀ u, s.currentPullRequestUpdater = some u → u.updaterId ≠ i := by
    intro u hu hui
    obtain ⟨-, hcalls, -⟩ := hinv.2.1 u hu
    rw [hui, hfin] at hcalls
    simp at hcalls
  cases e with
  | repositoriesUpdate l => rfl
  | stopUpdater =>
      simp only [coordinatorStep]
      cases hc : s.currentPullRequestUpdater with
      | none =>
          have hs : stopPullRequestUpdater s = s := by
            simp [stopPullRequestUpdater, hc]
          rw [hs]
      | some u =>
          have hs : stopPullRequestUpdater s =
              { s with
                currentPullRequestUpdater := none
                updaterTrace := s.updaterTrace ++ [UpdaterCall.stop u.updaterId] } := by
            simp [stopPullRequestUpdater, hc]
          rw [hs]
          have hsing : callsOn i [UpdaterCall.stop u.updaterId] = [] :=
            callsOn_singleton_ne i _
              (by simpa [UpdaterCall.updaterId] using hnotcur u hc)
          simp only [callsOn_append, hsing, List.append_nil]
  | startUpdater r a =>
      simp only [coordinatorStep]
      rw [startPullRequestUpdater_eq]
      have h1 : callsOn i [UpdaterCall.start s.nextUpdaterId] = [] :=
        callsOn_singleton_ne i _
          (by simpa [UpdaterCall.updaterId] using Nat.ne_of_gt hibound)
      have h2 : callsOn i
          (match s.currentPullRequestUpdater with
           | some u => [UpdaterCall.stop u.updaterId]
           | none => []) = [] := by
        cases hc : s.currentPullRequestUpdater with
        | none => rfl
        | some u =>
            exact callsOn_singleton_ne i _
              (by simpa [UpdaterCall.updaterId] using hnotcur u hc)
      simp only [callsOn_append, h1, h2, List.append_nil]

theorem finished_callsOn_run (s : CoordinatorState)
    (events : List CoordinatorEvent) (i : Nat)
    (hinv : UpdaterLifecycleInv s)
    (hfin : callsOn i s.updaterTrace = [UpdaterCall.start i, UpdaterCall.stop i]) :
    callsOn i (coordinatorRun s events).updaterTrace = callsOn i s.updaterTrace := by
  induction events generalizing s with
  | nil => rfl
  | cons e es ih =>
      have hstep := finished_callsOn_step s e i hinv hfin
      have hrest := ih (coordinatorStep s e) (updaterLifecycleInv_step s e hinv)
        (by rw [hstep]; exact hfin)
      simp only [coordinatorRun, List.foldl_cons] at hrest ⊢
      rw [hrest, hstep]

theorem stopPullRequestUpdater_repositories (s : CoordinatorState) :
    (stopPullRequestUpdater s).repositories = s.repositories := by
  cases hc : s.currentPullRequestUpdater <;> simp [stopPullRequestUpdater, hc]

theorem startPullRequestUpdater_repositories (r : Repository) (a : Account)
    (s : CoordinatorState) :
    (startPullRequestUpdater r a s).repositories = s.repositories := by
  rw [startPullRequestUpdater_eq]

theorem snapshot_filtered_step (s : CoordinatorState) (e : CoordinatorEvent)
    (h : ∀ r ∈ s.repositories, isRepositoryWithGitHubRepository r = true) :
    ∀ r ∈ (coordinatorStep s e).repositories,
      isRepositoryWithGitHubRepository r = true := by
  cases e with
  | repositoriesUpdate l =>
      intro r hr
      simp only [coordinatorStep, handleRepositoriesUpdate] at hr
      exact (List.mem_filter.mp hr).2
  | startUpdater rep a =>
      intro r hr
      rw [coordinatorStep, startPullRequestUpdater_repositories] at hr
      exact h r hr
  | stopUpdater =>
      intro r hr
      rw [coordinatorStep, stopPullRequestUpdater_repositories] at hr
      exact h r hr

theorem snapshot_filtered_run (s : CoordinatorState)
    (events : List CoordinatorEvent)
    (h : ∀ r ∈ s.repositories, isRepositoryWithGitHubRepository r = true) :
    ∀ r ∈ (coordinatorRun s events).repositories,
      isRepositoryWithGitHubRepository r = true := by
  induction events generalizing s with
  | nil => exact h
  | cons e es ih => exact ih (coordinatorStep s e) (snapshot_filtered_step s e h)

theorem matchesGitHubRepository_iff (d : Int) (r : Repository) :
    matchesGitHubRepository d r = true ↔
      ∃ g, r.gitHubRepository = some g ∧
        (g.dbID = d ∨ ∃ p, g.parent = some p ∧ p.dbID = d) := by
  unfold matchesGitHubRepository
  cases hg : r.gitHubRepository with
  | none => simp
  | some g =>
      cases hp : g.parent with
      | none => simp [hp]
      | some p => simp [hp]

/-- C1: for every remote repository `R` and snapshot `S`, the match set
computed by `findRepositoriesForGitHubRepository` is exactly the set of
entries of `S` whose remote has `R`'s dbID or has a non-null parent with
`R`'s dbID, i.e. the spec's association invariant. -/
theorem c1_match_set_characterization (R : GitHubRepository)
    (S : List Repository) (L : Repository) :
    L ∈ findRepositoriesForGitHubRepository R S ↔
      L ∈ S ∧ specAssociationMatch R L := by
  unfold findRepositoriesForGitHubRepository specAssociationMatch
  rw [List.mem_filter, matchesGitHubRepository_iff]

/-- Witness for C1 at a concrete input: the upstream clone is matched for an
event about the upstream remote. -/
theorem c1_match_set_characterization_witness :
    upstreamClone ∈
      findRepositoriesForGitHubRepository upstream42 [upstreamClone, forkRepo] :=
  (c1_match_set_characterization upstream42 [upstreamClone, forkRepo]
      upstreamClone).mpr
    ⟨by simp, ⟨upstream42, rfl, Or.inl rfl⟩⟩

/-- C5: when no repository in the snapshot matches the event's remote, both
fan-out handlers invoke the callback zero times; the handlers are total
functions, so no error is raised. -/
theorem c5_no_match_silent (s : CoordinatorState) (ghRepo : GitHubRepository)
    (h : ∀ r ∈ s.repositories,
        matchesGitHubRepository ghRepo.dbID r = false) :
    (∀ prs, onPullRequestsChangedDispatch s ghRepo prs = []) ∧
    (∀ b, onIsLoadingPullRequestsDispatch s ghRepo b = []) := by
  have hfind : findRepositoriesForGitHubRepository ghRepo s.repositories = [] := by
    unfold findRepositoriesForGitHubRepository
    refine List.filter_eq_nil_iff.mpr ?_
    intro r hr
    simp [h r hr]
  exact ⟨fun prs => by simp [onPullRequestsChangedDispatch, hfind],
         fun b => by simp [onIsLoadingPullRequestsDispatch, hfind]⟩

/-- Witness for C5: an event about an unrelated remote (dbID 99) produces no
invocation on the fork example snapshot. -/
theorem c5_no_match_silent_witness :
    (∀ r ∈ forkExampleState.repositories,
        matchesGitHubRepository unrelated99.dbID r = false) ∧
    (∀ prs, onPullRequestsChangedDispatch forkExampleState unrelated99 prs = []) :=
  ⟨by decide, (c5_no_match_silent forkExampleState unrelated99 (by decide)).1⟩

/-- C6: `stopPullRequestUpdater` with no active updater returns the state
unchanged (in particular it issues no updater call and raises no error), and
stopping is idempotent: any run of consecutive stops equals a single stop. -/
theorem c6_stop_noop_idempotent (s : CoordinatorState)
    (h : s.currentPullRequestUpdater = none) :
    stopPullRequestUpdater s = s ∧
    (∀ t : CoordinatorState,
        stopPullRequestUpdater (stopPullRequestUpdater t) =
          stopPullRequestUpdater t) := by
  constructor
  · simp [stopPullRequestUpdater, h]
  · intro t
    cases hc : t.currentPullRequestUpdater with
    | none => simp [stopPullRequestUpdater, hc]
    | some u =>
        have h1 : stopPullRequestUpdater t =
            { t with
              currentPullRequestUpdater := none
              updaterTrace := t.updaterTrace ++ [UpdaterCall.stop u.updaterId] } := by
          simp [stopPullRequestUpdater, hc]
        rw [h1]
        simp [stopPullRequestUpdater]

/-- Witness for C6 at the initial state, which has no active updater. -/
theorem c6_stop_noop_idempotent_witness :
    stopPullRequestUpdater initialCoordinatorState = initialCoordinatorState :=
  (c6_stop_noop_idempotent initialCoordinatorState rfl).1

/-- C7: `refreshPullRequests` and `getAllPullRequests` pass the repository's
associated remote to the store, return the store's result unchanged, depend
only on the remote (never on the local repository's own identity), and do not
intercept errors. -/
theorem c7_delegates_to_remote {ε α : Type}
    (storeRefreshPullRequests : Option GitHubRepository → Account → Except ε α)
    (storeGetAll : Option GitHubRepository → List PullRequest)
    (repository : Repository) (account : Account) :
    refreshPullRequests storeRefreshPullRequests repository account
        = storeRefreshPullRequests repository.gitHubRepository account ∧
    getAllPullRequests storeGetAll repository
        = storeGetAll repository.gitHubRepository ∧
    (∀ other : Repository,
        other.gitHubRepository = repository.gitHubRepository →
        refreshPullRequests storeRefreshPullRequests other account
            = refreshPullRequests storeRefreshPullRequests repository account ∧
        getAllPullRequests storeGetAll other
            = getAllPullRequests storeGetAll repository) ∧
    (∀ e : ε,
        storeRefreshPullRequests repository.gitHubRepository account
            = Except.error e →
        refreshPullRequests storeRefreshPullRequests repository account
            = Except.error e) := by
  refine ⟨rfl, rfl, ?_, ?_⟩
  · intro other ho
    constructor
    · show storeRefreshPullRequests other.gitHubRepository account = _
      rw [ho]
      rfl
    · show storeGetAll other.gitHubRepository = _
      rw [ho]
      rfl
  · intro e he
    exact he

/-- Witness for C7: with a store that always fails, the coordinator returns
the error unchanged; the delegation hypotheses are discharged by `rfl`. -/
theorem c7_delegates_to_remote_witness :
    refreshPullRequests (fun _ _ => (Except.error 7 : Except Int Unit))
        upstreamClone exampleAccount = Except.error 7 ∧
    getAllPullRequests (fun _ => []) bareLocalRepo = [] :=
  ⟨(c7_delegates_to_remote (fun _ _ => (Except.error 7 : Except Int Unit))
      (fun _ => []) upstreamClone exampleAccount).2.2.2 7 rfl,
   (c7_delegates_to_remote (fun _ _ => (Except.error 7 : Except Int Unit))
      (fun _ => []) bareLocalRepo exampleAccount).2.1⟩

/-- C8: the loading-state fan-out hits exactly the same repositories, in the
same order, as the pull-requests-changed fan-out for the same remote: both
equal the match list of `findRepositoriesForGitHubRepository`. -/
theorem c8_loading_fanout_identical (s : CoordinatorState)
    (ghRepo : GitHubRepository) (isLoading : Bool) (prs : List PullRequest) :
    (onIsLoadingPullRequestsDispatch s ghRepo isLoading).map Prod.fst
        = (onPullRequestsChangedDispatch s ghRepo prs).map Prod.fst ∧
    (onIsLoadingPullRequestsDispatch s ghRepo isLoading).map Prod.fst
        = findRepositoriesForGitHubRepository ghRepo s.repositories := by
  have hcomp1 : (Prod.fst ∘ fun repo : Repository => (repo, isLoading)) = id := rfl
  have hcomp2 : (Prod.fst ∘ fun repo : Repository => (repo, prs)) = id := rfl
  have h1 : (onIsLoadingPullRequestsDispatch s ghRepo isLoading).map Prod.fst
      = findRepositoriesForGitHubRepository ghRepo s.repositories := by
    rw [onIsLoadingPullRequestsDispatch, List.map_map, hcomp1, List.map_id]
  have h2 : (onPullRequestsChangedDispatch s ghRepo prs).map Prod.fst
      = findRepositoriesForGitHubRepository ghRepo s.repositories := by
    rw [onPullRequestsChangedDispatch, List.map_map, hcomp2, List.map_id]
  exact ⟨h1.trans h2.symm, h1⟩

/-- Witness for C8 at the fork example snapshot. -/
theorem c8_loading_fanout_identical_witness :
    (onIsLoadingPullRequestsDispatch forkExampleState upstream42 true).map
        Prod.fst
      = findRepositoriesForGitHubRepository upstream42
          forkExampleState.repositories :=
  (c8_loading_fanout_identical forkExampleState upstream42 true []).2

theorem startPullRequestUpdater_current (r : Repository) (a : Account)
    (s : CoordinatorState) :
    (startPullRequestUpdater r a s).currentPullRequestUpdater =
      some { updaterId := s.nextUpdaterId
             gitHubRepository := r.gitHubRepository
             account := a } := by
  rw [startPullRequestUpdater_eq]

theorem startStart_updaterTrace (r1 : Repository) (a1 : Account)
    (r2 : Repository) (a2 : Account) (s : CoordinatorState) :
    (startPullRequestUpdater r2 a2
        (startPullRequestUpdater r1 a1 s)).updaterTrace =
      s.updaterTrace ++
        ((match s.currentPullRequestUpdater with
          | some u => [UpdaterCall.stop u.updaterId]
          | none => []) ++ [UpdaterCall.start s.nextUpdaterId]) ++
        ([UpdaterCall.stop s.nextUpdaterId] ++
         [UpdaterCall.start (s.nextUpdaterId + 1)]) := by
  rw [startPullRequestUpdater_eq r2 a2 (startPullRequestUpdater r1 a1 s),
      startPullRequestUpdater_eq r1 a1 s]

theorem count_singleton_eq_zero (a b : UpdaterCall) (h : a ≠ b) :
    [b].count a = 0 :=
  List.count_eq_zero.mpr (by simpa using h)

/-- C2: on a pull-requests-changed store event the callback is invoked
exactly once per matching repository — the invocation list is the match list
of the snapshot, in snapshot order — each invocation carrying the same
pull-request list; and in the fork example (upstream clone `U` with remote
dbID 42 and fork `F` with remote parent dbID 42) an event for dbID 42
produces exactly the two invocations `(U, prs)` then `(F, prs)`. -/
theorem c2_fanout_once_per_match :
    (∀ (s : CoordinatorState) (ghRepo : GitHubRepository)
        (prs : List PullRequest),
      onPullRequestsChangedDispatch s ghRepo prs
          = (s.repositories.filter
              (matchesGitHubRepository ghRepo.dbID)).map
              (fun repo => (repo, prs)) ∧
      List.Sublist ((onPullRequestsChangedDispatch s ghRepo prs).map Prod.fst)
          s.repositories ∧
      (∀ p ∈ onPullRequestsChangedDispatch s ghRepo prs, p.2 = prs)) ∧
    (∀ prs : List PullRequest,
      onPullRequestsChangedDispatch forkExampleState upstream42 prs
          = [(upstreamClone, prs), (forkRepo, prs)]) := by
  constructor
  · intro s ghRepo prs
    refine ⟨rfl, ?_, ?_⟩
    · have hcomp : (Prod.fst ∘ fun repo : Repository => (repo, prs)) = id := rfl
      rw [onPullRequestsChangedDispatch, List.map_map, hcomp, List.map_id]
      exact List.filter_sublist _
    · intro p hp
      obtain ⟨repo, -, hrepo⟩ := List.mem_map.mp hp
      rw [← hrepo]
  · intro prs
    rfl

/-- Witness for C2: the fork example with one concrete pull request; the
upstream clone and the fork each get exactly one invocation, with the same
list. -/
theorem c2_fanout_once_per_match_witness :
    onPullRequestsChangedDispatch forkExampleState upstream42
        [{ number := 1 }]
      = [(upstreamClone, [{ number := 1 }]), (forkRepo, [{ number := 1 }])] ∧
    ((upstreamClone, ([{ number := 1 }] : List PullRequest)) ∈
        onPullRequestsChangedDispatch forkExampleState upstream42
          [{ number := 1 }] →
      (upstreamClone, ([{ number := 1 }] : List PullRequest)).2
        = [{ number := 1 }]) :=
  ⟨c2_fanout_once_per_match.2 [{ number := 1 }],
   (c2_fanout_once_per_match.1 forkExampleState upstream42
      [{ number := 1 }]).2.2 (upstreamClone, [{ number := 1 }])⟩

/-- C4: a registry update replaces the snapshot wholesale — the new snapshot
is the filtered new list, independent of the previous snapshot — so a
repository present in the snapshot before the update but absent from the new
registry list receives no fan-out invocation on subsequent store events. -/
theorem c4_registry_update_wholesale (s : CoordinatorState)
    (allRepositories : List Repository) (L : Repository)
    (hbefore : L ∈ s.repositories) (habsent : L ∉ allRepositories) :
    (handleRepositoriesUpdate allRepositories s).repositories
        = allRepositories.filter isRepositoryWithGitHubRepository ∧
    (∀ ghRepo prs p,
        p ∈ onPullRequestsChangedDispatch
              (handleRepositoriesUpdate allRepositories s) ghRepo prs →
        p.1 ≠ L) ∧
    (∀ ghRepo b p,
        p ∈ onIsLoadingPullRequestsDispatch
              (handleRepositoriesUpdate allRepositories s) ghRepo b →
        p.1 ≠ L) := by
  have hnot : L ∉ (handleRepositoriesUpdate allRepositories s).repositories := by
    intro hmem
    exact habsent (List.mem_of_mem_filter hmem)
  refine ⟨rfl, ?_, ?_⟩
  · intro ghRepo prs p hp heq
    obtain ⟨repo, hrepo, hpe⟩ := List.mem_map.mp hp
    apply hnot
    rw [← heq, ← hpe]
    exact List.mem_of_mem_filter hrepo
  · intro ghRepo b p hp heq
    obtain ⟨repo, hrepo, hpe⟩ := List.mem_map.mp hp
    apply hnot
    rw [← heq, ← hpe]
    exact List.mem_of_mem_filter hrepo

/-- Witness for C4: dropping the upstream clone from the registry list. -/
theorem c4_registry_update_wholesale_witness :
    (handleRepositoriesUpdate [forkRepo] forkExampleState).repositories
        = [forkRepo].filter isRepositoryWithGitHubRepository :=
  (c4_registry_update_wholesale forkExampleState [forkRepo] upstreamClone
      (by decide) (by decide)).1

/-- C9: after any sequence of coordinator events, every entry of the
snapshot has an associated GitHub repository — the registry handler filters
the incoming list with `isRepositoryWithGitHubRepository` — and a repository
without a remote association is never matched, hence never receives a
fan-out callback. -/
theorem c9_snapshot_always_has_remote (events : List CoordinatorEvent) :
    (∀ r ∈ (coordinatorRun initialCoordinatorState events).repositories,
        isRepositoryWithGitHubRepository r = true) ∧
    (∀ r : Repository, r.gitHubRepository = none →
        ∀ (ghRepo : GitHubRepository) (repositories : List Repository),
          r ∉ findRepositoriesForGitHubRepository ghRepo repositories) := by
  constructor
  · refine snapshot_filtered_run initialCoordinatorState events ?_
    intro r hr
    simp [initialCoordinatorState] at hr
  · intro r hr ghRepo repositories hmem
    unfold findRepositoriesForGitHubRepository at hmem
    have hmatch := (List.mem_filter.mp hmem).2
    rw [matchesGitHubRepository_iff] at hmatch
    obtain ⟨g, hg, -⟩ := hmatch
    rw [hr] at hg
    simp at hg

/-- Witness for C9: a repository without a remote announced to the registry
never enters the snapshot and is never matched. -/
theorem c9_snapshot_always_has_remote_witness :
    isRepositoryWithGitHubRepository upstreamClone = true ∧
    bareLocalRepo ∉ findRepositoriesForGitHubRepository upstream42
        [upstreamClone, bareLocalRepo] :=
  ⟨(c9_snapshot_always_has_remote
      [CoordinatorEvent.repositoriesUpdate [upstreamClone, bareLocalRepo]]).1
      upstreamClone (by decide),
   (c9_snapshot_always_has_remote []).2 bareLocalRepo rfl upstream42
      [upstreamClone, bareLocalRepo]⟩

/-- C3: two successive `startPullRequestUpdater` calls (for different
repositories): the first call constructs the updater with identity
`s0.nextUpdaterId`, the second call constructs the updater with identity
`s0.nextUpdaterId + 1`; the resulting trace contains exactly one `stop()` of
the first updater and exactly one `start()` of the second; whatever the
coordinator does afterwards, the first updater's call history stays
`[start, stop]` — it never receives any further interaction — and at every
reachable point at most one updater is live. -/
theorem c3_start_twice_exclusive (s0 : CoordinatorState)
    (hinv : UpdaterLifecycleInv s0) (r1 r2 : Repository) (a1 a2 : Account)
    (hne : r1 ≠ r2) :
    (startPullRequestUpdater r1 a1 s0).currentPullRequestUpdater
        = some { updaterId := s0.nextUpdaterId
                 gitHubRepository := r1.gitHubRepository
                 account := a1 } ∧
    (startPullRequestUpdater r2 a2
        (startPullRequestUpdater r1 a1 s0)).currentPullRequestUpdater
        = some { updaterId := s0.nextUpdaterId + 1
                 gitHubRepository := r2.gitHubRepository
                 account := a2 } ∧
    ((startPullRequestUpdater r2 a2
        (startPullRequestUpdater r1 a1 s0)).updaterTrace.count
          (UpdaterCall.stop s0.nextUpdaterId) = 1 ∧
     (startPullRequestUpdater r2 a2
        (startPullRequestUpdater r1 a1 s0)).updaterTrace.count
          (UpdaterCall.start (s0.nextUpdaterId + 1)) = 1) ∧
    (∀ events,
        callsOn s0.nextUpdaterId
            (coordinatorRun
              (startPullRequestUpdater r2 a2
                (startPullRequestUpdater r1 a1 s0)) events).updaterTrace
          = [UpdaterCall.start s0.nextUpdaterId,
             UpdaterCall.stop s0.nextUpdaterId]) ∧
    (∀ events i j,
        updaterLive i (coordinatorRun s0 events).updaterTrace →
        updaterLive j (coordinatorRun s0 events).updaterTrace → i = j) := by
  refine ⟨startPullRequestUpdater_current r1 a1 s0, ?_, ⟨?_, ?_⟩, ?_, ?_⟩
  · rw [startPullRequestUpdater_current, startPullRequestUpdater_eq r1 a1 s0]
  · -- exactly one stop() of the first updater
    have h1 : s0.updaterTrace.count (UpdaterCall.stop s0.nextUpdaterId) = 0 := by
      rw [List.count_eq_zero]
      intro hmem
      exact Nat.lt_irrefl s0.nextUpdaterId (hinv.1 _ hmem)
    have h2 : (match s0.currentPullRequestUpdater with
        | some u => [UpdaterCall.stop u.updaterId]
        | none => []).count (UpdaterCall.stop s0.nextUpdaterId) = 0 := by
      cases hc : s0.currentPullRequestUpdater with
      | none => rfl
      | some u =>
          have hlt := (hinv.2.1 u hc).1
          refine count_singleton_eq_zero _ _ ?_
          simp only [ne_eq, UpdaterCall.stop.injEq]
          omega
    have h3 : [UpdaterCall.start s0.nextUpdaterId].count
        (UpdaterCall.stop s0.nextUpdaterId) = 0 :=
      count_singleton_eq_zero _ _ (by simp)
    have h4 : [UpdaterCall.stop s0.nextUpdaterId].count
        (UpdaterCall.stop s0.nextUpdaterId) = 1 := by
      simp
    have h5 : [UpdaterCall.start (s0.nextUpdaterId + 1)].count
        (UpdaterCall.stop s0.nextUpdaterId) = 0 :=
      count_singleton_eq_zero _ _ (by simp)
    simp only [startStart_updaterTrace, List.count_append, h1, h2, h3, h4, h5]
  · -- exactly one start() of the second updater
    have h1 : s0.updaterTrace.count
        (UpdaterCall.start (s0.nextUpdaterId + 1)) = 0 := by
      rw [List.count_eq_zero]
      intro hmem
      have hb := hinv.1 _ hmem
      simp only [UpdaterCall.updaterId] at hb
      omega
    have h2 : (match s0.currentPullRequestUpdater with
        | some u => [UpdaterCall.stop u.updaterId]
        | none => []).count (UpdaterCall.start (s0.nextUpdaterId + 1)) = 0 := by
      cases hc : s0.currentPullRequestUpdater with
      | none => rfl
      | some u => exact count_singleton_eq_zero _ _ (by simp)
    have h3 : [UpdaterCall.start s0.nextUpdaterId].count
        (UpdaterCall.start (s0.nextUpdaterId + 1)) = 0 := by
      refine count_singleton_eq_zero _ _ ?_
      simp only [ne_eq, UpdaterCall.start.injEq]
      omega
    have h4 : [UpdaterCall.stop s0.nextUpdaterId].count
        (UpdaterCall.start (s0.nextUpdaterId + 1)) = 0 :=
      count_singleton_eq_zero _ _ (by simp)
    have h5 : [UpdaterCall.start (s0.nextUpdaterId + 1)].count
        (UpdaterCall.start (s0.nextUpdaterId + 1)) = 1 := by
      simp
    simp only [startStart_updaterTrace, List.count_append, h1, h2, h3, h4, h5]
  · -- the first updater never receives any further interaction
    intro events
    have hinv2 : UpdaterLifecycleInv
        (startPullRequestUpdater r2 a2 (startPullRequestUpdater r1 a1 s0)) :=
      updaterLifecycleInv_start r2 a2 _ (updaterLifecycleInv_start r1 a1 s0 hinv)
    have hfin : callsOn s0.nextUpdaterId
        (startPullRequestUpdater r2 a2
          (startPullRequestUpdater r1 a1 s0)).updaterTrace
        = [UpdaterCall.start s0.nextUpdaterId,
           UpdaterCall.stop s0.nextUpdaterId] := by
      have k1 : callsOn s0.nextUpdaterId s0.updaterTrace = [] :=
        callsOn_eq_nil_of_lt _ _ hinv.1
      have k2 : callsOn s0.nextUpdaterId
          (match s0.currentPullRequestUpdater with
           | some u => [UpdaterCall.stop u.updaterId]
           | none => []) = [] := by
        cases hc : s0.currentPullRequestUpdater with
        | none => rfl
        | some u =>
            have hlt := (hinv.2.1 u hc).1
            refine callsOn_singleton_ne _ _ ?_
            simp only [UpdaterCall.updaterId]
            omega
      have k3 : callsOn s0.nextUpdaterId
          [UpdaterCall.start s0.nextUpdaterId]
          = [UpdaterCall.start s0.nextUpdaterId] :=
        callsOn_singleton_self (UpdaterCall.start s0.nextUpdaterId)
      have k4 : callsOn s0.nextUpdaterId
          [UpdaterCall.stop s0.nextUpdaterId]
          = [UpdaterCall.stop s0.nextUpdaterId] :=
        callsOn_singleton_self (UpdaterCall.stop s0.nextUpdaterId)
      have k5 : callsOn s0.nextUpdaterId
          [UpdaterCall.start (s0.nextUpdaterId + 1)] = [] := by
        refine callsOn_singleton_ne _ _ ?_
        simp only [UpdaterCall.updaterId]
        omega
      simp only [startStart_updaterTrace, callsOn_append, k1, k2, k3, k4, k5,
        List.nil_append, List.append_nil]
      rfl
    rw [finished_callsOn_run _ events _ hinv2 hfin, hfin]
  · -- at most one live updater at every reachable point
    intro events i j hi hj
    exact updaterLive_eq_of_inv _ (updaterLifecycleInv_run s0 events hinv) i j hi hj

/-- Witness for C3 from the freshly constructed coordinator, switching from
the upstream clone to the fork. -/
theorem c3_start_twice_exclusive_witness :
    (startPullRequestUpdater forkRepo otherAccount
        (startPullRequestUpdater upstreamClone exampleAccount
          initialCoordinatorState)).updaterTrace.count
      (UpdaterCall.stop initialCoordinatorState.nextUpdaterId) = 1 :=
  ((c3_start_twice_exclusive initialCoordinatorState updaterLifecycleInv_initial
      upstreamClone forkRepo exampleAccount otherAccount (by decide)).2.2.1).1

/-- C10: `formatAsLocalRef` always yields a fully qualified ref beginning
with "refs/heads/": it prepends "refs/" when the name already starts with
"heads/", and "refs/heads/" otherwise. -/
theorem c10_formatAsLocalRef_qualified (name : List Char) :
    (∃ rest, formatAsLocalRef name = "refs/heads/".toList ++ rest) ∧
    formatAsLocalRef name =
      (if ("heads/".toList).isPrefixOf name then "refs/".toList ++ name
       else "refs/heads/".toList ++ name) := by
  refine ⟨?_, rfl⟩
  cases h : ("heads/".toList).isPrefixOf name with
  | true =>
      obtain ⟨r, hr⟩ := List.isPrefixOf_iff_prefix.mp h
      refine ⟨r, ?_⟩
      simp only [formatAsLocalRef, h, if_true]
      rw [← hr, ← List.append_assoc]
      rfl
  | false =>
      refine ⟨name, ?_⟩
      simp only [formatAsLocalRef, h, Bool.false_eq_true, if_false]

/-- Witness for C10 on the branch name "master", as in the source's own doc
comment example. -/
theorem c10_formatAsLocalRef_qualified_witness :
    (∃ rest, formatAsLocalRef "master".toList = "refs/heads/".toList ++ rest) ∧
    formatAsLocalRef "master".toList = "refs/heads/master".toList :=
  ⟨(c10_formatAsLocalRef_qualified "master".toList).1, by decide⟩

end Desktop
